import Mathlib

/-!
Verification of the vccgallery media server (`src/server.js`).

Strings are modelled as lists of characters (`JStr`). JavaScript string
operations used by the server (`trim`, `toLowerCase`, `split(/[-_]+/)` +
`join(" ")`, `path.extname`, `path.parse(..).name`, `path.join`) are
translated below. Machine details abstracted: `toLowerCase` is modelled on
ASCII (the fixed extension set is ASCII), `trim` uses the core whitespace
characters, and `toLocaleDateString("en-US", ...)` is modelled at UTC with
the proleptic Gregorian calendar (the server's local time zone is not part
of the spec).
-/

/-- A JavaScript string, modelled as its list of characters. -/
abbrev JStr := List Char

/-- Shorthand to turn a Lean string literal into a `JStr`. -/
def str (s : String) : JStr := s.toList

/-- Whitespace test used by the model of `String.prototype.trim`. -/
def isWs (c : Char) : Bool := c.isWhitespace

/-- Model of JavaScript `s.trim()`: drop whitespace from both ends. -/
def jsTrim (l : JStr) : JStr := ((l.dropWhile isWs).reverse.dropWhile isWs).reverse

/-- Characters matched by the regex class `[-_]` in the server. -/
def isSep (c : Char) : Bool := c = '-' || c = '_'

/-- Model of `s.split(/[-_]+/).join(" ")`: every maximal run of hyphens and
underscores becomes a single space.  The boolean flag records whether the
previous character was part of such a run. -/
def collapseSepsAux : Bool → JStr → JStr
  | _, [] => []
  | prevSep, c :: rest =>
    if isSep c then
      (if prevSep then ([] : JStr) else [' ']) ++ collapseSepsAux true rest
    else c :: collapseSepsAux false rest

/-- Replace each run of `-`/`_` by one space (see `collapseSepsAux`). -/
def collapseSeps (l : JStr) : JStr := collapseSepsAux false l

/-- Model of JavaScript `s.toLowerCase()` restricted to ASCII, which covers
every extension and the literal `"cover"` compared by the server. -/
def lowerStr (l : JStr) : JStr := l.map Char.toLower

/-- Model of Node's `path.extname` on a base name: the suffix starting at the
last dot, empty when there is no dot or the only dot leads the name (hidden
files such as `.bashrc`), with Node's special case for `".."`. -/
def extname (l : JStr) : JStr :=
  match l.reverse.findIdx? (fun c => c = '.') with
  | none => []
  | some r =>
    let i := l.length - 1 - r
    if i = 0 then [] else if l = str ".." then [] else l.drop i

/-- The characters after the last path separator (`split(sep).pop()` /
the base-name part of `path.parse`). The server joins paths with a single
separator, modelled as `'/'`. -/
def basenameOf (l : JStr) : JStr := (l.reverse.takeWhile (fun c => c ≠ '/')).reverse

/-- Model of `path.parse(p).name`: base name with its extension removed. -/
def parseName (p : JStr) : JStr :=
  let b := basenameOf p
  b.take (b.length - (extname b).length)

/-- Model of `path.join(rel, n)` for the relative paths built by the server. -/
def joinRel (rel n : JStr) : JStr := if rel.isEmpty then n else rel ++ '/' :: n

/-- The filename-derived fallback caption:
`path.parse(relativePath).name.split(/[-_]+/).join(" ").trim()`
(src/server.js line 109). -/
def filenameCaption (relPath : JStr) : JStr := jsTrim (collapseSeps (parseName relPath))

/-! ### Date formatting

`new Date(ts * 1000).toLocaleDateString("en-US", { year: "numeric",
month: "long", day: "numeric" })` (src/server.js lines 97-98), modelled at
UTC via the standard civil-from-days conversion on the proleptic Gregorian
calendar. -/

/-- English month names used by the `en-US` long date format. -/
def monthNames : List JStr :=
  [str "January", str "February", str "March", str "April", str "May",
   str "June", str "July", str "August", str "September", str "October",
   str "November", str "December"]

/-- Convert a day count since 1970-01-01 to `(year, month, day)`. -/
def civilFromDays (z0 : Int) : Int × Nat × Nat :=
  let z := z0 + 719468
  let era := z.fdiv 146097
  let doe := z - era * 146097
  let yoe := (doe - doe.fdiv 1460 + doe.fdiv 36524 - doe.fdiv 146096).fdiv 365
  let y := yoe + era * 400
  let doy := doe - (365 * yoe + yoe.fdiv 4 - yoe.fdiv 100)
  let mp := (5 * doy + 2).fdiv 153
  let d := doy - (153 * mp + 2).fdiv 5 + 1
  let m := if mp < 10 then mp + 3 else mp - 9
  ((if m ≤ 2 then y + 1 else y), m.toNat, d.toNat)

/-- Decimal digits of a natural number. -/
def natStr (n : Nat) : JStr := (Nat.repr n).toList

/-- Decimal digits of an integer. -/
def intStr (i : Int) : JStr := if i < 0 then '-' :: natStr i.natAbs else natStr i.toNat

/-- `en-US` long date ("March 15, 2024") for a Unix timestamp in seconds. -/
def formatLongDate (ts : Int) : JStr :=
  let c := civilFromDays (ts.fdiv 86400)
  (monthNames.getD (c.2.1 - 1) (str "January")) ++ (' ' :: natStr c.2.2) ++ (',' :: ' ' :: intStr c.1)

/-! ### EXIF data and the caption resolver -/

/-- The EXIF tags consulted by the server, as produced by `exif-parser`
(`parser.tags`).  `none` models an absent tag (JS `undefined`). -/
structure ExifData where
  imageDescription : Option JStr := none
  title : Option JStr := none
  objectName : Option JStr := none
  dateTimeOriginal : Option Int := none
  cameraModel : Option JStr := none
deriving DecidableEq, Repr

/-- JS truthiness of an optional string: present and non-empty. -/
def truthyS : Option JStr → Bool
  | none => false
  | some s => !s.isEmpty

/-- JS truthiness of an optional number: present and non-zero. -/
def truthyI : Option Int → Bool
  | none => false
  | some n => n != 0

/-- The tag loop of `processMediaFileForModal` (src/server.js lines 88-94):
scan `ImageDescription`, `Title`, `ObjectName` in order and stop at the first
truthy value. -/
def firstTruthyTag (e : ExifData) : Option JStr :=
  ([e.imageDescription, e.title, e.objectName].filterMap id).find? (fun s => !s.isEmpty)

/-- Caption produced by the tag loop: the trimmed first truthy tag value,
or `""` when every tag is absent or empty. -/
def tagCaption (e : ExifData) : JStr :=
  match firstTruthyTag e with
  | some v => jsTrim v
  | none => []

/-- Caption derived from parsed EXIF metadata (src/server.js lines 87-103):
tag loop, then `DateTimeOriginal` (when truthy) as a long date, then the
camera `Model` string (when truthy), else `""`. -/
def exifCaption (e : ExifData) : JStr :=
  let c := tagCaption e
  if c.isEmpty then
    if truthyI e.dateTimeOriginal then formatLongDate (e.dateTimeOriginal.getD 0)
    else if truthyS e.cameraModel then e.cameraModel.getD []
    else []
  else c

/-- Extensions treated as JPEG by the resolver. -/
def isJpgExt (ext : JStr) : Bool := ext = str ".jpg" || ext = str ".jpeg"

/-- Extensions treated as video by the resolver. -/
def isVideoExt (ext : JStr) : Bool := [str ".mp4", str ".mov", str ".webm"].contains ext

/-- The fixed supported extension set of the directory scanner. -/
def supportedExts : List JStr :=
  [str ".jpg", str ".jpeg", str ".png", str ".gif", str ".mp4", str ".mov",
   str ".webm", str ".webp"]

/-- `[".jpg", ...].includes(path.extname(file).toLowerCase())`
(src/server.js lines 34-35). -/
def isSupportedName (name : JStr) : Bool := supportedExts.contains (lowerStr (extname name))

/-- One entry of a modal navigation list: `{ file, caption, ext }`. -/
structure MediaEntry where
  file : JStr
  caption : JStr
  ext : JStr
deriving DecidableEq, Repr

/-- Model of `processMediaFileForModal(fullPath, relativePath)`
(src/server.js lines 81-113).  `name` is the base name of `fullPath` (only
its extension is read from `fullPath`), `exif` is what `getExifData` returns
for the file's bytes (`none` on parse failure). -/
def processMediaFileForModal (name relPath : JStr) (exif : Option ExifData) : MediaEntry :=
  let ext := lowerStr (extname name)
  let c1 :=
    if isJpgExt ext then
      match exif with
      | some e => exifCaption e
      | none => []
    else []
  let caption :=
    if c1.isEmpty then
      if isVideoExt ext then str "Video" else filenameCaption relPath
    else c1
  ⟨relPath, caption, ext⟩

/-! ### Filesystem model

The media root is a tree of named entries.  A directory carries an `ok`
flag: `ok = false` models a directory whose `readdir` fails (the only
filesystem failure mode exercised by the server's error handling).  A file
carries the `ExifData` that `getExifData` would return for its bytes
(`none` models a parse failure or a non-JPEG byte stream). -/

inductive Entry where
  | file (name : JStr) (exif : Option ExifData)
  | dir (name : JStr) (ok : Bool) (sub : List Entry)

deriving instance DecidableEq for Except

/-- The entry's name as listed by `readdir`. -/
def Entry.name : Entry → JStr
  | .file n _ => n
  | .dir n _ _ => n

/-- `readdir` without `withFileTypes` returns all entry names. -/
def listNames (sub : List Entry) : List JStr := sub.map Entry.name

/-- Model of `getMediaFilesFromDirectory` (src/server.js lines 30-41):
list the directory and keep the names with a supported extension; a read
error (`ok = false`) is caught, logged and yields `[]`. -/
def getMediaFilesFromDirectory (ok : Bool) (sub : List Entry) : List JStr :=
  if ok then (listNames sub).filter isSupportedName else []

/-- What `getExifData(path.join(folder, n))` returns: the exif of the file
named `n`, and `none` when `n` names a subdirectory (`readFileSync` throws)
or nothing at all. -/
def exifAt (sub : List Entry) (n : JStr) : Option ExifData :=
  match sub.find? (fun e => decide (e.name = n)) with
  | some (.file _ x) => x
  | _ => none

/-- The record returned by `findFolderCover`. -/
structure Cover where
  url : JStr
  caption : JStr
  ext : JStr
deriving DecidableEq, Repr

/-- Default caption from a folder's relative path:
`folderRelativePath.split(path.sep).pop().split(/[-_]+/).join(" ").trim()`
(src/server.js line 61). -/
def folderNameCaption (relPath : JStr) : JStr := jsTrim (collapseSeps (basenameOf relPath))

/-- `path.parse(file).name.toLowerCase().startsWith("cover")`
(src/server.js line 49). -/
def coverNamePred (f : JStr) : Bool := (str "cover").isPrefixOf (lowerStr (parseName f))

/-- Model of `findFolderCover(folderFullPath, folderRelativePath)`
(src/server.js lines 44-78). -/
def findFolderCover (ok : Bool) (sub : List Entry) (folderRelPath : JStr) : Option Cover :=
  let mediaFiles := getMediaFilesFromDirectory ok sub
  let potentialCovers := mediaFiles.filter coverNamePred
  let coverFileName := match potentialCovers with
    | c :: _ => some c
    | [] => mediaFiles.head?
  match coverFileName with
  | none => none
  | some c =>
    let caption0 := folderNameCaption folderRelPath
    let caption :=
      if isJpgExt (lowerStr (extname c)) then
        match exifAt sub c with
        | some e =>
          match e.imageDescription with
          | some d => if d.isEmpty then caption0 else jsTrim d
          | none => caption0
        | none => caption0
      else caption0
    some ⟨'/' :: joinRel folderRelPath c, caption, lowerStr (extname c)⟩

/-! ### Gallery assembly (main route) -/

/-- A top-level gallery item before sorting (src/server.js lines 120-147). -/
inductive GItem where
  | folderI (name caption thumb link : JStr)
  | fileI (entry : MediaEntry) (thumb : JStr)
deriving DecidableEq, Repr

/-- The root-level gallery items: a folder item (with cover data) per
subdirectory, a file item per supported media file, nothing otherwise. -/
def mainGalleryItems (roots : List Entry) : List GItem :=
  roots.filterMap fun e =>
    match e with
    | .dir n ok sub =>
      let cover := findFolderCover ok sub n
      some (.folderI n
        (match cover with | some c => c.caption | none => folderNameCaption n)
        (match cover with | some c => c.url | none => str "/folder_icon.png")
        ('/' :: n))
    | .file n exif =>
      if isSupportedName n then
        some (.fileI (processMediaFileForModal n n exif) ('/' :: n))
      else none

/-- Is the item a folder item? -/
def GItem.isFolder : GItem → Bool
  | .folderI .. => true
  | .fileI .. => false

/-- The key compared by the sort comparator: `a.name || a.caption`
(src/server.js line 155).  File items have no `name` property, folder items
fall back to the caption only for an empty name. -/
def itemKey : GItem → JStr
  | .folderI n c _ _ => if n.isEmpty then c else n
  | .fileI e _ => e.caption

/-- The sort comparator of src/server.js lines 152-156 as a `Bool`-valued
"less or equal": folders strictly before files, otherwise key order.
`localeCompare` is modelled as code-point lexicographic comparison (a fixed
total order standing in for the server's locale collation). -/
def itemLe (a b : GItem) : Bool :=
  match a, b with
  | .folderI .., .fileI .. => true
  | .fileI .., .folderI .. => false
  | _, _ => decide (itemKey a ≤ itemKey b)

/-- `itemLe` as a relation, for the sorting lemmas. -/
def itemR (a b : GItem) : Prop := itemLe a b = true

instance : DecidableRel itemR := fun a b => decEq (itemLe a b) true

/-- `galleryItems.sort(comparator)`: JS `Array.prototype.sort` is stable and
the comparator is a total preorder, so its result is the unique stable
sorted permutation, modelled by insertion sort. -/
def gallerySort (l : List GItem) : List GItem := List.insertionSort itemR l

/-! ### The global flattened list (`collectAllMediaFiles`) -/

/-- Order-idealised model of `collectAllMediaFiles` (src/server.js lines
158-177) restricted to one directory's entry list, with the accumulated
relative path `rel`.  The sibling promises of `Promise.all` are serialised
here in depth-first enumeration order, which is **not** the real push order
of the shared array (see `collectA` for the event-loop order); this
definition is used only for conclusions that do not depend on the list's
order: which entries occur, and error propagation.  A `readdir` failure on
any subdirectory is **not** caught and rejects the whole walk (there is no
try/catch in `collectAllMediaFiles`). -/
def collectL (rel : JStr) : List Entry → Except Unit (List MediaEntry)
  | [] => .ok []
  | .file n exif :: es =>
    match collectL rel es with
    | .error e => .error e
    | .ok r =>
      .ok ((if isSupportedName n then [processMediaFileForModal n (joinRel rel n) exif] else []) ++ r)
  | .dir n ok sub :: es =>
    if ok then
      match collectL (joinRel rel n) sub with
      | .error e => .error e
      | .ok a =>
        match collectL rel es with
        | .error e => .error e
        | .ok r => .ok (a ++ r)
    else .error ()

/-- Every directory in the forest is readable. -/
def readableL : List Entry → Bool
  | [] => true
  | .file _ _ :: es => readableL es
  | .dir _ ok sub :: es => ok && readableL sub && readableL es

/-- The spec's description of the flattened list (spec section 4.4): "one
flattened, depth-first, directory-enumeration-order list of every media
file" of the tree, each processed by the caption resolver.  Stated from the
spec's words for comparison with `collectL`. -/
def specFlatten (rel : JStr) : List Entry → List MediaEntry
  | [] => []
  | .file n exif :: es =>
    (if isSupportedName n then [processMediaFileForModal n (joinRel rel n) exif] else [])
      ++ specFlatten rel es
  | .dir n _ sub :: es => specFlatten (joinRel rel n) sub ++ specFlatten rel es

/-! #### Event-loop order of the shared-array pushes

`collectAllMediaFiles` pushes into `allMediaFilesForModal` from concurrent
promise chains, so the array's order is the event-loop completion order,
not the enumeration order of the recursion.  Concretely:

* every `fs.promises.readdir` is real asynchronous I/O, so a directory's
  contents are pushed only after the currently running synchronous /
  microtask phase has drained — in particular after every already
  enumerated plain file at every level in flight;
* within one directory, a non-JPEG file's push (`await` of an
  already-resolved promise, one microtask tick) precedes a JPEG file's
  push (whose chain crosses the extra `await getExifData(...)` tick), and
  files with equal tick depth push in enumeration order (FIFO microtask
  queue).

The model below serialises this as a FIFO queue of directory jobs
(breadth-first over directories), assuming `readdir` completions are
delivered in the order the reads were issued (they are queued to the same
thread pool; for trees with at most one pending `readdir` at a time this
involves no assumption at all).  Each job pushes its non-JPEG media files
first, then its JPEG files, each group in enumeration order, and enqueues
its subdirectories in enumeration order. -/

/-- The non-JPEG media files of one directory, processed in enumeration
order with the job's relative path (first microtask wave of a job). -/
def filesNonJpg (rel : JStr) : List Entry → List MediaEntry
  | [] => []
  | .file n exif :: es =>
    if isSupportedName n && !isJpgExt (lowerStr (extname n)) then
      processMediaFileForModal n (joinRel rel n) exif :: filesNonJpg rel es
    else filesNonJpg rel es
  | .dir _ _ _ :: es => filesNonJpg rel es

/-- The JPEG media files of one directory, processed in enumeration order
(second microtask wave: their chains cross the `await getExifData` tick). -/
def filesJpg (rel : JStr) : List Entry → List MediaEntry
  | [] => []
  | .file n exif :: es =>
    if isSupportedName n && isJpgExt (lowerStr (extname n)) then
      processMediaFileForModal n (joinRel rel n) exif :: filesJpg rel es
    else filesJpg rel es
  | .dir _ _ _ :: es => filesJpg rel es

/-- All pushes contributed by one directory job, in push order. -/
def jobFiles (rel : JStr) (es : List Entry) : List MediaEntry :=
  filesNonJpg rel es ++ filesJpg rel es

/-- The `readdir` jobs issued by one directory job, in issue (enumeration)
order: relative path, readability, contents. -/
def subJobs (rel : JStr) : List Entry → List (JStr × Bool × List Entry)
  | [] => []
  | .file _ _ :: es => subJobs rel es
  | .dir n ok sub :: es => (joinRel rel n, ok, sub) :: subJobs rel es

/-- Size of a forest of entries (termination measure; always positive). -/
def sizeE : List Entry → Nat
  | [] => 1
  | .file _ _ :: es => 1 + sizeE es
  | .dir _ _ sub :: es => 1 + sizeE sub + sizeE es

/-- Total size of the entry lists of a job queue (termination measure). -/
def qSize : List (JStr × Bool × List Entry) → Nat
  | [] => 0
  | (_, _, es) :: rest => sizeE es + qSize rest

/-- Event-loop-order model of `collectAllMediaFiles`: drain the FIFO queue
of directory jobs; each job contributes its files (non-JPEG wave, then
JPEG wave) and appends its subdirectory jobs to the queue.  An unreadable
directory rejects the whole walk, as in the code. -/
def collectA : List (JStr × Bool × List Entry) → Except Unit (List MediaEntry)
  | [] => .ok []
  | (rel, ok, es) :: rest =>
    if ok then
      match collectA (rest ++ subJobs rel es) with
      | .error e => .error e
      | .ok out => .ok (jobFiles rel es ++ out)
    else .error ()
termination_by q => qSize q
decreasing_by
  rename_i rel ok _hok
  have happ : ∀ q1 q2 : List (JStr × Bool × List Entry),
      qSize (q1 ++ q2) = qSize q1 + qSize q2 := by
    intro q1 q2
    induction q1 with
    | nil => simp [qSize]
    | cons j t ih =>
      obtain ⟨r, o, l⟩ := j
      simp only [List.cons_append, qSize, List.append_eq, ih]
      omega
  have hsub : ∀ (r : JStr) (l : List Entry), qSize (subJobs r l) < sizeE l := by
    intro r l
    induction l with
    | nil =>
      rw [subJobs, qSize, sizeE]
      omega
    | cons e t ih =>
      cases e with
      | file n exif =>
        rw [subJobs, sizeE]
        omega
      | dir n dok sub =>
        rw [subJobs, qSize, sizeE]
        omega
  simp only [happ, qSize]
  have := hsub rel es
  omega

/-- Every job in the queue is readable, contents included. -/
def readableQ : List (JStr × Bool × List Entry) → Bool
  | [] => true
  | (_, ok, es) :: rest => ok && readableL es && readableQ rest

/-- The depth-first reference lists of a whole job queue. -/
def specQ : List (JStr × Bool × List Entry) → List MediaEntry
  | [] => []
  | (rel, _, es) :: rest => specFlatten rel es ++ specQ rest

/-- Model of `Array.prototype.findIndex`: first index satisfying the
predicate, as an `Option`. -/
def findIdxO (p : α → Bool) : List α → Option Nat
  | [] => none
  | x :: xs => if p x then some 0 else (findIdxO p xs).map (· + 1)

/-- `findIndex` proper: `-1` when nothing matches (src/server.js line 196). -/
def jsFindIndex (p : α → Bool) (l : List α) : Int :=
  match findIdxO p l with
  | some k => (k : Int)
  | none => -1

/-- A rendered tile of a gallery page.  A file tile carries the
`data-index` attribute used by the client-side modal. -/
inductive Tile where
  | folderT (link thumb caption : JStr)
  | fileT (entry : MediaEntry) (thumb : JStr) (dataIndex : Int)
deriving DecidableEq, Repr

/-- Rendering one sorted gallery item (src/server.js lines 179-208): a file
tile's `data-index` is `allMediaFilesForModal.findIndex(f => f.file === data.file)`. -/
def renderTile (allMedia : List MediaEntry) : GItem → Tile
  | .folderI _ c t l => .folderT l t c
  | .fileI e t => .fileT e t (jsFindIndex (fun f => decide (f.file = e.file)) allMedia)

/-- The data of the rendered top-level page. -/
structure MainPage where
  tiles : List Tile
  modalList : List MediaEntry
deriving DecidableEq, Repr

/-- The media root: its own readability plus its entries. -/
structure FS where
  rootOk : Bool
  rootEntries : List Entry

/-- Model of `app.get("/")` (src/server.js lines 116-215) with the modal
list built by the order-idealised `collectL`; adequate for error behaviour
and for which entries occur, not for the list's order (see `mainRouteA`).
A failure to read the media root, or a `readdir` failure anywhere inside
the un-guarded recursive walk, is caught by the route's try/catch and
answered with a generic 500 (`Except.error`). -/
def mainRoute (fs : FS) : Except Unit MainPage :=
  if fs.rootOk then
    match collectL [] fs.rootEntries with
    | .ok allMedia =>
      .ok ⟨(gallerySort (mainGalleryItems fs.rootEntries)).map (renderTile allMedia), allMedia⟩
    | .error e => .error e
  else .error ()

/-- Model of `app.get("/")` with the modal list in the event-loop push
order (`collectA`); everything else — gallery items, sort, tile rendering,
`findIndex`-based `data-index` — is as in `mainRoute`. -/
def mainRouteA (fs : FS) : Except Unit MainPage :=
  if fs.rootOk then
    match collectA [([], true, fs.rootEntries)] with
    | .ok allMedia =>
      .ok ⟨(gallerySort (mainGalleryItems fs.rootEntries)).map (renderTile allMedia), allMedia⟩
    | .error e => .error e
  else .error ()

/-! ### Folder route and dispatch -/

/-- The data of a rendered folder page. -/
structure FolderPage where
  tiles : List Tile
  modalList : List MediaEntry
deriving DecidableEq, Repr

/-- The folder-scoped modal list (src/server.js lines 230-237): the folder's
immediate media files, each processed with relative path `folder/file`. -/
def folderModalList (folderName : JStr) (ok : Bool) (sub : List Entry) : List MediaEntry :=
  (getMediaFilesFromDirectory ok sub).map fun f =>
    processMediaFileForModal f (joinRel folderName f) (exifAt sub f)

/-- Folder-page rendering (src/server.js lines 239-254): `data-index` is the
position in the folder's own list. -/
def withIdx (i : Int) : List MediaEntry → List Tile
  | [] => []
  | d :: ds => .fileT d ('/' :: d.file) i :: withIdx (i + 1) ds

/-- A response of the HTTP surface. -/
inductive Response where
  | mainR (p : MainPage)
  | folderR (p : FolderPage)
  | staticR (path : JStr)
  | notFound
  | serverError
deriving DecidableEq, Repr

/-- First entry with the given name (directory entries have unique names). -/
def lookupName (es : List Entry) (n : JStr) : Option Entry :=
  es.find? (fun e => decide (e.name = n))

/-- Model of `app.get("/:potentialFolderName")` (src/server.js lines
220-279): `stat` the single path segment under the root; a directory
renders the folder's gallery, anything else falls through (`next()`). -/
def folderRoute (fs : FS) (name : JStr) : Response :=
  match lookupName fs.rootEntries name with
  | some (.dir _ ok sub) =>
    let modal := folderModalList name ok sub
    .folderR ⟨withIdx 0 modal, modal⟩
  | _ => .notFound

/-- Does a request path resolve to a file in the tree?  `express.static`
opens the joined path directly, so directory `ok` flags are irrelevant. -/
def resolveStatic (es : List Entry) : List JStr → Bool
  | [] => false
  | [n] =>
    match lookupName es n with
    | some (.file ..) => true
    | _ => false
  | n :: rest =>
    match lookupName es n with
    | some (.dir _ _ sub) => resolveStatic sub rest
    | _ => false

/-- Join URL path segments with `/`. -/
def joinSegs : List JStr → JStr
  | [] => []
  | [s] => s
  | s :: rest => s ++ '/' :: joinSegs rest

/-- The server's request dispatch for a path split into segments:
`express.static` first (src/server.js line 15), then `app.get("/")` for the
empty path, then `app.get("/:potentialFolderName")` — whose pattern matches
exactly one path segment — and otherwise the framework 404. -/
def dispatch (fs : FS) (segs : List JStr) : Response :=
  if resolveStatic fs.rootEntries segs then .staticR (joinSegs segs)
  else
    match segs with
    | [] =>
      match mainRoute fs with
      | .ok p => .mainR p
      | .error _ => .serverError
    | [n] => folderRoute fs n
    | _ => .notFound

/-! ### Spec-side definitions used to state the claims -/

/-- The spec's description of the tag rule (spec section 4.2): "check
description-like tags in fixed priority order: ImageDescription, then
Title, then ObjectName; use first non-empty, trimmed value."  Stated from
the spec's words for comparison with the tag loop of the resolver. -/
def specFirstDescription (e : ExifData) : Option JStr :=
  (([e.imageDescription, e.title, e.objectName].filterMap id).map jsTrim).find? (fun s => !s.isEmpty)

/-- C5's example item `FileItem("b.jpg")`, built by the resolver. -/
def exFileB : GItem := .fileI (processMediaFileForModal (str "b.jpg") (str "b.jpg") none) (str "/b.jpg")

/-- C5's example item `FileItem("a.jpg")`, built by the resolver. -/
def exFileA : GItem := .fileI (processMediaFileForModal (str "a.jpg") (str "a.jpg") none) (str "/a.jpg")

/-- C5's example item `FolderItem("a")`. -/
def exFolderA : GItem := .folderI (str "a") (str "a") (str "/folder_icon.png") (str "/a")

/-- What C4 (amended) asserts about the chosen cover file `c` of a folder:
the returned cover points at `c`, its caption is the folder-name caption
by default and the trimmed `ImageDescription` of `c` exactly when `c` is a
JPEG whose parsed EXIF carries a present, raw-non-empty `ImageDescription`. -/
def coverResult (sub : List Entry) (rp c : JStr) : Prop :=
  ∃ cov, findFolderCover true sub rp = some cov ∧
    cov.url = '/' :: joinRel rp c ∧ cov.ext = lowerStr (extname c) ∧
    (∀ e d, isJpgExt (lowerStr (extname c)) = true → exifAt sub c = some e →
      e.imageDescription = some d → d ≠ [] → cov.caption = jsTrim d) ∧
    (isJpgExt (lowerStr (extname c)) = false → cov.caption = folderNameCaption rp) ∧
    (isJpgExt (lowerStr (extname c)) = true → exifAt sub c = none →
      cov.caption = folderNameCaption rp) ∧
    (∀ e, isJpgExt (lowerStr (extname c)) = true → exifAt sub c = some e →
      e.imageDescription = none → cov.caption = folderNameCaption rp) ∧
    (∀ e, isJpgExt (lowerStr (extname c)) = true → exifAt sub c = some e →
      e.imageDescription = some [] → cov.caption = folderNameCaption rp)

instance : IsTotal GItem itemR :=
  ⟨by intro a b; cases a <;> cases b <;> simp [itemR, itemLe] <;> exact le_total _ _⟩

instance : IsTrans GItem itemR :=
  ⟨by
    intro a b c hab hbc
    cases a <;> cases b <;> cases c <;> simp_all [itemR, itemLe] <;> exact le_trans hab hbc⟩

/-! ### Helper lemmas -/

theorem isSupportedName_iff (n : JStr) :
    isSupportedName n = true ↔ lowerStr (extname n) ∈ supportedExts := by
  simp [isSupportedName, List.contains, List.elem_iff]

theorem gallerySort_sorted (l : List GItem) : List.Sorted itemR (gallerySort l) :=
  List.sorted_insertionSort itemR l

theorem gallerySort_perm (l : List GItem) : (gallerySort l).Perm l :=
  List.perm_insertionSort itemR l

theorem gallerySort_folders_first (l : List GItem) {i j : Nat} (hij : i < j)
    (hj : j < (gallerySort l).length)
    (hfold : ((gallerySort l).get ⟨j, hj⟩).isFolder = true) :
    ((gallerySort l).get ⟨i, lt_trans hij hj⟩).isFolder = true := by
  have hs := gallerySort_sorted l
  have hr := hs.rel_get_of_lt (a := ⟨i, lt_trans hij hj⟩) (b := ⟨j, hj⟩) hij
  cases hgi : (gallerySort l).get ⟨i, lt_trans hij hj⟩ with
  | folderI n c t lk => simp [GItem.isFolder]
  | fileI e t =>
    cases hgj : (gallerySort l).get ⟨j, hj⟩ with
    | folderI n c th lk => rw [hgi, hgj] at hr; simp [itemR, itemLe] at hr
    | fileI e' t' => rw [hgj] at hfold; simp [GItem.isFolder] at hfold

theorem mem_dropWhile_of_not (p : Char → Bool) (l : JStr) (x : Char) (hx : x ∈ l)
    (hpx : p x = false) : x ∈ l.dropWhile p := by
  induction l with
  | nil => cases hx
  | cons a as ih =>
    cases hpa : p a
    · simpa [List.dropWhile, hpa] using hx
    · rcases List.mem_cons.mp hx with h | h
      · subst h; rw [hpa] at hpx; cases hpx
      · simpa [List.dropWhile, hpa] using ih h

theorem mem_jsTrim (l : JStr) (c : Char) (hc : c ∈ l) (hw : isWs c = false) : c ∈ jsTrim l := by
  unfold jsTrim
  exact List.mem_reverse.mpr (mem_dropWhile_of_not _ _ _
    (List.mem_reverse.mpr (mem_dropWhile_of_not _ _ _ hc hw)) hw)

theorem jsTrim_ne_nil (l : JStr) (c : Char) (hc : c ∈ l) (hw : isWs c = false) :
    jsTrim l ≠ [] := by
  intro h
  have := mem_jsTrim l c hc hw
  rw [h] at this
  cases this

theorem mem_collapseSepsAux (l : JStr) (c : Char) (hc : c ∈ l) (hs : isSep c = false) :
    ∀ b, c ∈ collapseSepsAux b l := by
  induction l with
  | nil => cases hc
  | cons a as ih =>
    intro b
    rcases List.mem_cons.mp hc with h | h
    · subst h; simp [collapseSepsAux, hs]
    · cases hsa : isSep a
      · simpa [collapseSepsAux, hsa] using Or.inr (ih h false)
      · simp only [collapseSepsAux, hsa, if_pos]
        exact List.mem_append_right _ (ih h true)

theorem jsTrim_nil : jsTrim [] = [] := rfl

theorem jsTrim_collapseSeps_ne_nil (l : JStr) (c : Char) (hc : c ∈ l)
    (hs : isSep c = false) (hw : isWs c = false) : jsTrim (collapseSeps l) ≠ [] :=
  jsTrim_ne_nil _ c (mem_collapseSepsAux l c hc hs false) hw

theorem findIdxO_spec (p : α → Bool) :
    ∀ l : List α, (∃ x ∈ l, p x = true) →
      ∃ k, findIdxO p l = some k ∧ ∃ h : k < l.length, p (l.get ⟨k, h⟩) = true ∧
        ∀ j (hj : j < l.length), j < k → p (l.get ⟨j, hj⟩) = false := by
  intro l
  induction l with
  | nil => rintro ⟨x, hx, _⟩; cases hx
  | cons a as ih =>
    rintro ⟨x, hx, hpx⟩
    cases hpa : p a
    · have hxas : x ∈ as := by
        rcases List.mem_cons.mp hx with h | h
        · subst h; rw [hpa] at hpx; cases hpx
        · exact h
      obtain ⟨k, hk, hlen, hget, hbefore⟩ := ih ⟨x, hxas, hpx⟩
      refine ⟨k + 1, by simp [findIdxO, hpa, hk], Nat.succ_lt_succ hlen, by simpa using hget, ?_⟩
      intro j hj hjk
      cases j with
      | zero => exact hpa
      | succ j' =>
        have hj' : j' < as.length := Nat.lt_of_succ_lt_succ hj
        simpa using hbefore j' hj' (Nat.lt_of_succ_lt_succ hjk)
    · exact ⟨0, by simp [findIdxO, hpa], by simp, by simpa using hpa, by omega⟩

theorem head?_filter_eq_find? (p : α → Bool) (l : List α) :
    (l.filter p).head? = l.find? p := by
  induction l with
  | nil => rfl
  | cons a as ih =>
    cases hpa : p a
    · rw [List.filter_cons_of_neg (by simp [hpa]), List.find?_cons_of_neg _ (by simp [hpa])]
      exact ih
    · simp [List.filter, List.find?, hpa]

theorem withIdx_length (l : List MediaEntry) : ∀ i, (withIdx i l).length = l.length := by
  induction l with
  | nil => intro i; rfl
  | cons d ds ih => intro i; simp [withIdx, ih]

theorem withIdx_getElem? (l : List MediaEntry) :
    ∀ (i : Int) (k : Nat),
      (withIdx i l)[k]? = l[k]?.map (fun d => Tile.fileT d ('/' :: d.file) (i + k)) := by
  induction l with
  | nil => intro i k; simp [withIdx]
  | cons d ds ih =>
    intro i k
    cases k with
    | zero => simp [withIdx]
    | succ k' =>
      have h := ih (i + 1) k'
      simp only [withIdx, List.getElem?_cons_succ, h]
      have harg : ∀ d' : MediaEntry,
          Tile.fileT d' ('/' :: d'.file) (i + 1 + (k' : Int))
            = Tile.fileT d' ('/' :: d'.file) (i + ((k' : Nat) + 1 : Nat)) := by
        intro d'
        congr 1
        push_cast
        ring
      cases ds[k']? with
      | none => simp
      | some d' => simp [harg d']

theorem entryList_ind (motive : List Entry → Prop)
    (hnil : motive [])
    (hfile : ∀ n exif es, motive es → motive (.file n exif :: es))
    (hdir : ∀ n ok sub es, motive sub → motive es → motive (.dir n ok sub :: es)) :
    ∀ es, motive es := by
  have key : ∀ N es, sizeOf es ≤ N → motive es := by
    intro N
    induction N with
    | zero =>
      intro es h
      cases es with
      | nil => exact hnil
      | cons e es' => simp only [List.cons.sizeOf_spec] at h; omega
    | succ N ihN =>
      intro es h
      cases es with
      | nil => exact hnil
      | cons e es' =>
        cases e with
        | file n exif =>
          refine hfile n exif es' (ihN es' ?_)
          simp only [List.cons.sizeOf_spec, Entry.file.sizeOf_spec] at h ⊢
          omega
        | dir n ok sub =>
          refine hdir n ok sub es' (ihN sub ?_) (ihN es' ?_) <;>
            · simp only [List.cons.sizeOf_spec, Entry.dir.sizeOf_spec] at h ⊢
              omega
  exact fun es => key (sizeOf es) es le_rfl

theorem collectL_of_readable :
    ∀ (es : List Entry), readableL es = true →
      ∀ rel, collectL rel es = .ok (specFlatten rel es) := by
  intro es
  induction es using entryList_ind with
  | hnil => intro _ rel; simp [collectL, specFlatten]
  | hfile n exif es ih =>
    intro h rel
    rw [readableL] at h
    simp [collectL, specFlatten, ih h rel]
  | hdir n ok sub es ihsub ihes =>
    intro h rel
    rw [readableL] at h
    obtain ⟨⟨hok, h1⟩, h2⟩ := by simpa [Bool.and_eq_true] using h
    simp [collectL, specFlatten, hok, ihsub h1, ihes h2]

theorem collectL_ok_readable :
    ∀ (es : List Entry) (rel : JStr) (l : List MediaEntry),
      collectL rel es = .ok l → readableL es = true := by
  intro es
  induction es using entryList_ind with
  | hnil => intro rel l _; rw [readableL]
  | hfile n exif es ih =>
    intro rel l h
    rw [collectL] at h
    rw [readableL]
    cases hc : collectL rel es with
    | error e => rw [hc] at h; cases h
    | ok r => exact ih rel r hc
  | hdir n ok sub es ihsub ihes =>
    intro rel l h
    rw [collectL] at h
    rw [readableL]
    cases hok : ok with
    | false => rw [hok] at h; simp at h
    | true =>
      rw [hok] at h
      simp only [if_true] at h
      cases hc1 : collectL (joinRel rel n) sub with
      | error e => rw [hc1] at h; cases h
      | ok a =>
        rw [hc1] at h
        cases hc2 : collectL rel es with
        | error e => rw [hc2] at h; cases h
        | ok r => simp [ihsub _ a hc1, ihes _ r hc2]

theorem specFlatten_ext_supported :
    ∀ (es : List Entry) (rel : JStr), ∀ x ∈ specFlatten rel es,
      supportedExts.contains x.ext = true := by
  intro es
  induction es using entryList_ind with
  | hnil => intro rel x hx; rw [specFlatten] at hx; cases hx
  | hfile n exif es ih =>
    intro rel x hx
    rw [specFlatten] at hx
    rcases List.mem_append.mp hx with h | h
    · cases hsn : isSupportedName n
      · rw [hsn] at h; simp at h
      · rw [hsn] at h
        simp only [if_true] at h
        have hx' : x = processMediaFileForModal n (joinRel rel n) exif := by simpa using h
        subst hx'
        exact hsn
    · exact ih rel x h
  | hdir n ok sub es ihsub ihes =>
    intro rel x hx
    rw [specFlatten] at hx
    rcases List.mem_append.mp hx with h | h
    · exact ihsub _ x h
    · exact ihes rel x h

theorem specFlatten_mem_root :
    ∀ (rel : JStr) (es : List Entry) (n : JStr) (exif : Option ExifData),
      Entry.file n exif ∈ es → isSupportedName n = true →
        processMediaFileForModal n (joinRel rel n) exif ∈ specFlatten rel es := by
  intro rel es n exif hmem hsn
  induction es with
  | nil => cases hmem
  | cons e es' ih =>
    rcases List.mem_cons.mp hmem with h | h
    · subst h
      rw [specFlatten, hsn]
      simp
    · cases e with
      | file m x => rw [specFlatten]; exact List.mem_append_right _ (ih h)
      | dir m ok sub => rw [specFlatten]; exact List.mem_append_right _ (ih h)

theorem mainRoute_ok_elim (fs : FS) (page : MainPage) (h : mainRoute fs = .ok page) :
    fs.rootOk = true ∧ collectL [] fs.rootEntries = .ok page.modalList ∧
      page.tiles = (gallerySort (mainGalleryItems fs.rootEntries)).map (renderTile page.modalList) := by
  rw [mainRoute] at h
  cases hro : fs.rootOk with
  | false => rw [hro] at h; simp at h
  | true =>
    rw [hro] at h
    simp only [if_true] at h
    cases hc : collectL [] fs.rootEntries with
    | error e => rw [hc] at h; cases h
    | ok am =>
      rw [hc] at h
      cases h
      exact ⟨rfl, rfl, rfl⟩

theorem mainRoute_tiles_mem (fs : FS) (page : MainPage) (t : Tile)
    (h : mainRoute fs = .ok page) (ht : t ∈ page.tiles) :
    ∃ it ∈ mainGalleryItems fs.rootEntries, t = renderTile page.modalList it := by
  obtain ⟨_, _, htiles⟩ := mainRoute_ok_elim fs page h
  rw [htiles] at ht
  obtain ⟨it, hit, hrt⟩ := List.mem_map.mp ht
  exact ⟨it, (gallerySort_perm _).mem_iff.mp hit, hrt.symm⟩

theorem mainGalleryItems_cases (roots : List Entry) (it : GItem)
    (h : it ∈ mainGalleryItems roots) :
    (∃ n ok sub, Entry.dir n ok sub ∈ roots ∧
      it = .folderI n
        (match findFolderCover ok sub n with | some c => c.caption | none => folderNameCaption n)
        (match findFolderCover ok sub n with | some c => c.url | none => str "/folder_icon.png")
        ('/' :: n)) ∨
    (∃ n exif, Entry.file n exif ∈ roots ∧ isSupportedName n = true ∧
      it = .fileI (processMediaFileForModal n n exif) ('/' :: n)) := by
  obtain ⟨e, he, hfe⟩ := List.mem_filterMap.mp h
  cases e with
  | dir n ok sub =>
    left
    refine ⟨n, ok, sub, he, ?_⟩
    simp only [mainGalleryItems] at hfe
    cases hfe
    rfl
  | file n exif =>
    right
    refine ⟨n, exif, he, ?_⟩
    simp only [mainGalleryItems] at hfe
    cases hsn : isSupportedName n
    · rw [hsn] at hfe; simp at hfe
    · rw [hsn] at hfe
      simp only [if_true] at hfe
      cases hfe
      exact ⟨rfl, rfl⟩

theorem ne_nil_of_isEmpty_false {l : JStr} (h : l.isEmpty = false) : l ≠ [] := by
  cases l with
  | nil => simp at h
  | cons c cs => simp

theorem monthNames_getD_ne_nil (i : Nat) : monthNames.getD i (str "January") ≠ [] := by
  by_cases hi : i < 12
  · interval_cases i <;> decide
  · rw [List.getD_eq_default _ _ (by simp [monthNames, str]; omega)]
    decide

theorem formatLongDate_ne_nil (ts : Int) : formatLongDate ts ≠ [] := by
  rw [formatLongDate]
  intro h
  rcases List.append_eq_nil.mp h with ⟨_, h2⟩
  cases h2

theorem mem_getMediaFiles {ok : Bool} {sub : List Entry} {f : JStr}
    (h : f ∈ getMediaFilesFromDirectory ok sub) : isSupportedName f = true := by
  rw [getMediaFilesFromDirectory] at h
  cases ok with
  | false => simp at h
  | true => exact (List.mem_filter.mp (by simpa using h)).2

theorem collectL_error_of_unreadable {es : List Entry} (rel : JStr)
    (h : readableL es = false) : collectL rel es = .error () := by
  cases hc : collectL rel es with
  | ok l => rw [collectL_ok_readable es rel l hc] at h; cases h
  | error e => cases e; rfl

theorem sizeE_pos : ∀ es : List Entry, 0 < sizeE es := by
  intro es
  cases es with
  | nil => rw [sizeE]; omega
  | cons e t =>
    cases e with
    | file n exif => rw [sizeE]; omega
    | dir n ok sub => rw [sizeE]; omega

theorem qSize_append (q1 q2 : List (JStr × Bool × List Entry)) :
    qSize (q1 ++ q2) = qSize q1 + qSize q2 := by
  induction q1 with
  | nil => simp [qSize]
  | cons j t ih =>
    obtain ⟨r, o, l⟩ := j
    simp only [List.cons_append, qSize, List.append_eq, ih]
    omega

theorem qSize_subJobs_lt (rel : JStr) (es : List Entry) :
    qSize (subJobs rel es) < sizeE es := by
  induction es with
  | nil => rw [subJobs, qSize, sizeE]; omega
  | cons e t ih =>
    cases e with
    | file n exif => rw [subJobs, sizeE]; omega
    | dir n dok sub => rw [subJobs, qSize, sizeE]; omega

theorem readableQ_append (q1 q2 : List (JStr × Bool × List Entry)) :
    readableQ (q1 ++ q2) = (readableQ q1 && readableQ q2) := by
  induction q1 with
  | nil => simp [readableQ]
  | cons j t ih =>
    obtain ⟨r, o, l⟩ := j
    simp only [List.cons_append, readableQ, List.append_eq, ih, Bool.and_assoc]

theorem readableQ_subJobs (rel : JStr) (es : List Entry)
    (h : readableL es = true) : readableQ (subJobs rel es) = true := by
  induction es with
  | nil => rw [subJobs, readableQ]
  | cons e t ih =>
    cases e with
    | file n exif =>
      rw [readableL] at h
      rw [subJobs]
      exact ih h
    | dir n dok sub =>
      rw [readableL] at h
      obtain ⟨⟨hok, hsub⟩, ht⟩ := by simpa [Bool.and_eq_true] using h
      rw [subJobs, readableQ]
      simp [hok, hsub, ih ht]

theorem specQ_append (q1 q2 : List (JStr × Bool × List Entry)) :
    specQ (q1 ++ q2) = specQ q1 ++ specQ q2 := by
  induction q1 with
  | nil => simp [specQ]
  | cons j t ih =>
    obtain ⟨r, o, l⟩ := j
    simp only [List.cons_append, specQ, List.append_eq, ih, List.append_assoc]

theorem specFlatten_perm_jobFiles (rel : JStr) (es : List Entry) :
    (specFlatten rel es).Perm (jobFiles rel es ++ specQ (subJobs rel es)) := by
  induction es with
  | nil =>
    rw [specFlatten, jobFiles, filesNonJpg, filesJpg, subJobs, specQ]
    rfl
  | cons e t ih =>
    cases e with
    | file n exif =>
      rw [specFlatten, jobFiles, filesNonJpg, filesJpg, subJobs]
      rw [jobFiles] at ih
      cases hsn : isSupportedName n
      · simpa [hsn] using ih
      · cases hj : isJpgExt (lowerStr (extname n))
        · -- non-JPEG wave: the file heads the first block on both sides
          simp only [hsn, hj, Bool.not_false, Bool.and_true, Bool.and_false, if_true,
            Bool.true_and, Bool.and_self, if_false, List.singleton_append, List.cons_append,
            Bool.false_eq_true]
          exact ih.cons _
        · -- JPEG wave: the file sits after the non-JPEG block on the right
          simp only [hsn, hj, Bool.not_true, Bool.and_false, if_false, Bool.and_true,
            Bool.and_self, if_true, List.singleton_append, Bool.false_eq_true]
          refine (ih.cons _).trans ?_
          simp only [List.append_assoc]
          exact List.perm_middle.symm
    | dir n dok sub =>
      rw [specFlatten, jobFiles, filesNonJpg, filesJpg, subJobs, specQ]
      rw [jobFiles] at ih
      refine (List.Perm.append_left _ ih).trans ?_
      exact List.perm_append_comm_assoc _ _ _

theorem collectA_of_readable :
    ∀ q, readableQ q = true → ∃ r, collectA q = .ok r ∧ r.Perm (specQ q) := by
  have key : ∀ (N : Nat) (q : List (JStr × Bool × List Entry)), qSize q ≤ N →
      readableQ q = true → ∃ r, collectA q = .ok r ∧ r.Perm (specQ q) := by
    intro N
    induction N with
    | zero =>
      intro q hq _
      cases q with
      | nil => exact ⟨[], by rw [collectA], by rw [specQ]⟩
      | cons j t =>
        obtain ⟨rel, ok, es⟩ := j
        rw [qSize] at hq
        have := sizeE_pos es
        omega
    | succ N ihN =>
      intro q hq hr
      cases q with
      | nil => exact ⟨[], by rw [collectA], by rw [specQ]⟩
      | cons j t =>
        obtain ⟨rel, ok, es⟩ := j
        rw [readableQ] at hr
        obtain ⟨⟨hok, hres⟩, hrt⟩ := by simpa [Bool.and_eq_true] using hr
        have hq' : qSize (t ++ subJobs rel es) ≤ N := by
          rw [qSize_append]
          have h1 := qSize_subJobs_lt rel es
          rw [qSize] at hq
          omega
        have hr' : readableQ (t ++ subJobs rel es) = true := by
          rw [readableQ_append]
          simp [hrt, readableQ_subJobs rel es hres]
        obtain ⟨r', hocol, hperm⟩ := ihN (t ++ subJobs rel es) hq' hr'
        refine ⟨jobFiles rel es ++ r', ?_, ?_⟩
        · rw [collectA, hok, hocol]
          simp
        · rw [specQ]
          rw [specQ_append] at hperm
          have h2 : (jobFiles rel es ++ specQ (subJobs rel es)).Perm (specFlatten rel es) :=
            (specFlatten_perm_jobFiles rel es).symm
          exact ((hperm.append_left _).trans
            (List.perm_append_comm_assoc _ _ _)).trans
            ((h2.append_left _).trans List.perm_append_comm)
  exact fun q hr => key (qSize q) q le_rfl hr

theorem isEmpty_false_of_ne_nil {l : JStr} (h : l ≠ []) : l.isEmpty = false := by
  cases l with
  | nil => exact absurd rfl h
  | cons c cs => rfl

theorem caption_of_jpg (name relPath : JStr) (e : ExifData)
    (hjpg : isJpgExt (lowerStr (extname name)) = true) :
    (processMediaFileForModal name relPath (some e)).caption =
      if (exifCaption e).isEmpty then
        (if isVideoExt (lowerStr (extname name)) then str "Video" else filenameCaption relPath)
      else exifCaption e := by
  simp only [processMediaFileForModal, hjpg, if_true]

theorem caption_of_jpg_none (name relPath : JStr)
    (hjpg : isJpgExt (lowerStr (extname name)) = true) :
    (processMediaFileForModal name relPath none).caption =
      if isVideoExt (lowerStr (extname name)) then str "Video" else filenameCaption relPath := by
  simp [processMediaFileForModal, hjpg]

theorem caption_of_not_jpg (name relPath : JStr) (exif : Option ExifData)
    (hjpg : isJpgExt (lowerStr (extname name)) = false) :
    (processMediaFileForModal name relPath exif).caption =
      if isVideoExt (lowerStr (extname name)) then str "Video" else filenameCaption relPath := by
  simp [processMediaFileForModal, hjpg]

theorem exifCaption_of_tag (e : ExifData) (v : JStr) (hv : firstTruthyTag e = some v)
    (hne : jsTrim v ≠ []) : exifCaption e = jsTrim v := by
  simp [exifCaption, tagCaption, hv, isEmpty_false_of_ne_nil hne]

theorem exifCaption_of_tag_empty (e : ExifData) (hv : tagCaption e = []) :
    exifCaption e =
      (if truthyI e.dateTimeOriginal then formatLongDate (e.dateTimeOriginal.getD 0)
       else if truthyS e.cameraModel then e.cameraModel.getD [] else []) := by
  simp [exifCaption, hv]

/-- Claim C1 (counterexample): with EXIF tags `ImageDescription = " "` and
`Title = "Hello"`, the first non-empty trimmed description value is
`"Hello"`, but the resolver returns the filename-derived caption `"photo"`:
the truthy-but-whitespace `ImageDescription` breaks the tag loop and the
remaining tags are never consulted. -/
theorem c1_counterexample :
    specFirstDescription { imageDescription := some (str " "), title := some (str "Hello") }
        = some (str "Hello") ∧
    (processMediaFileForModal (str "photo.jpg") (str "photo.jpg")
        (some { imageDescription := some (str " "), title := some (str "Hello") })).caption
        = str "photo" ∧
    (str "photo" : JStr) ≠ str "Hello" := by
  refine ⟨by decide, by decide, by decide⟩

/-- Claim C1 (amended): for a JPEG whose EXIF parses, the resolver scans
`ImageDescription`, `Title`, `ObjectName` in order and selects the first
value that is present and non-empty as a raw string, returning its trimmed
form; when that trimmed form is non-empty it is the caption. In particular
an `ImageDescription` whose trimmed text is non-empty always yields that
text, never the formatted date. When the selected value trims to empty the
remaining tags are skipped and a present non-zero `DateTimeOriginal` yields
the formatted date instead. -/
theorem c1_tag_priority (name relPath : JStr) (e : ExifData)
    (hjpg : isJpgExt (lowerStr (extname name)) = true) :
    (∀ v, firstTruthyTag e = some v → jsTrim v ≠ [] →
      (processMediaFileForModal name relPath (some e)).caption = jsTrim v) ∧
    (∀ d, e.imageDescription = some d → jsTrim d ≠ [] →
      (processMediaFileForModal name relPath (some e)).caption = jsTrim d) ∧
    (∀ v, firstTruthyTag e = some v → jsTrim v = [] →
      ∀ ts, e.dateTimeOriginal = some ts → ts ≠ 0 →
        (processMediaFileForModal name relPath (some e)).caption = formatLongDate ts) := by
  have main : ∀ v, firstTruthyTag e = some v → jsTrim v ≠ [] →
      (processMediaFileForModal name relPath (some e)).caption = jsTrim v := by
    intro v hv hne
    rw [caption_of_jpg name relPath e hjpg, exifCaption_of_tag e v hv hne,
      isEmpty_false_of_ne_nil hne]
    simp
  refine ⟨main, ?_, ?_⟩
  · intro d hd hne
    have hdne : d ≠ [] := by
      intro h
      subst h
      exact hne jsTrim_nil
    have hft : firstTruthyTag e = some d := by
      rw [firstTruthyTag, hd]
      simp [List.find?, isEmpty_false_of_ne_nil hdne]
    exact main d hft hne
  · intro v hv hvnil ts hts htsne
    have htc : tagCaption e = [] := by rw [tagCaption, hv]; exact hvnil
    have htruthy : truthyI e.dateTimeOriginal = true := by
      rw [hts]
      simp [truthyI, htsne]
    rw [caption_of_jpg name relPath e hjpg, exifCaption_of_tag_empty e htc, htruthy]
    simp only [if_true, hts, Option.getD_some]
    rw [isEmpty_false_of_ne_nil (formatLongDate_ne_nil ts)]
    simp

/-- Witness for C1: a JPEG with `ImageDescription = " summer "` and
`DateTimeOriginal = 1710460800` gets the caption `"summer"`, not the date. -/
theorem c1_witness :
    (processMediaFileForModal (str "p.jpg") (str "p.jpg")
        (some { imageDescription := some (str " summer "),
                dateTimeOriginal := some 1710460800 })).caption = str "summer" :=
  (c1_tag_priority (str "p.jpg") (str "p.jpg")
      { imageDescription := some (str " summer "), dateTimeOriginal := some 1710460800 }
      (by decide)).2.1 (str " summer ") (by decide) (by decide)

/-- Claim C2 (counterexample): a JPEG whose only EXIF tag is
`DateTimeOriginal = 0` (the Unix epoch, a present timestamp) is claimed to
get the caption `"January 1, 1970"`, but `0` is falsy in JavaScript, so the
resolver skips the date and falls back to the filename-derived caption. -/
theorem c2_counterexample :
    (processMediaFileForModal (str "x.jpg") (str "x.jpg")
        (some { dateTimeOriginal := some 0 })).caption = str "x" ∧
    formatLongDate 0 = str "January 1, 1970" ∧
    (str "x" : JStr) ≠ formatLongDate 0 := by
  refine ⟨by decide, by decide, by decide⟩

/-- Claim C2 (amended): when the tag loop produces no caption, the fallback
chain is: a present **non-zero** `DateTimeOriginal` yields the formatted
long date; else a present **non-empty** `Model` yields the raw model
string; else `.mp4`/`.mov`/`.webm` files get `"Video"`; else the caption is
the filename stem with separator runs collapsed and trimmed.  Files that
are not JPEGs (or whose EXIF fails to parse) go straight to the
video/filename fallback. -/
theorem c2_fallback_chain (name relPath : JStr) :
    (∀ e : ExifData, isJpgExt (lowerStr (extname name)) = true → tagCaption e = [] →
      (∀ ts, e.dateTimeOriginal = some ts → ts ≠ 0 →
        (processMediaFileForModal name relPath (some e)).caption = formatLongDate ts) ∧
      (truthyI e.dateTimeOriginal = false → ∀ m, e.cameraModel = some m → m ≠ [] →
        (processMediaFileForModal name relPath (some e)).caption = m) ∧
      (truthyI e.dateTimeOriginal = false → truthyS e.cameraModel = false →
        (isVideoExt (lowerStr (extname name)) = true →
          (processMediaFileForModal name relPath (some e)).caption = str "Video") ∧
        (isVideoExt (lowerStr (extname name)) = false →
          (processMediaFileForModal name relPath (some e)).caption = filenameCaption relPath))) ∧
    (∀ exif : Option ExifData, isJpgExt (lowerStr (extname name)) = false →
      (isVideoExt (lowerStr (extname name)) = true →
        (processMediaFileForModal name relPath exif).caption = str "Video") ∧
      (isVideoExt (lowerStr (extname name)) = false →
        (processMediaFileForModal name relPath exif).caption = filenameCaption relPath)) ∧
    (isJpgExt (lowerStr (extname name)) = true →
      (isVideoExt (lowerStr (extname name)) = true →
        (processMediaFileForModal name relPath none).caption = str "Video") ∧
      (isVideoExt (lowerStr (extname name)) = false →
        (processMediaFileForModal name relPath none).caption = filenameCaption relPath)) := by
  refine ⟨?_, ?_, ?_⟩
  · intro e hjpg htc
    refine ⟨?_, ?_, ?_⟩
    · intro ts hts htsne
      have htruthy : truthyI e.dateTimeOriginal = true := by
        rw [hts]; simp [truthyI, htsne]
      rw [caption_of_jpg name relPath e hjpg, exifCaption_of_tag_empty e htc, htruthy]
      simp only [if_true, hts, Option.getD_some]
      rw [isEmpty_false_of_ne_nil (formatLongDate_ne_nil ts)]
      simp
    · intro hdto m hm hmne
      have htruthy : truthyS e.cameraModel = true := by
        rw [hm]; simp [truthyS, isEmpty_false_of_ne_nil hmne]
      rw [caption_of_jpg name relPath e hjpg, exifCaption_of_tag_empty e htc, hdto, htruthy]
      simp only [if_false, if_true, hm, Option.getD_some, Bool.false_eq_true]
      rw [isEmpty_false_of_ne_nil hmne]
      simp
    · intro hdto hmod
      have hec : exifCaption e = [] := by
        rw [exifCaption_of_tag_empty e htc, hdto, hmod]
        simp
      constructor
      · intro hv
        rw [caption_of_jpg name relPath e hjpg, hec, hv]
        simp
      · intro hv
        rw [caption_of_jpg name relPath e hjpg, hec, hv]
        simp
  · intro exif hjpg
    rw [caption_of_not_jpg name relPath exif hjpg]
    constructor
    · intro hv; rw [hv]; simp
    · intro hv; rw [hv]; simp
  · intro hjpg
    rw [caption_of_jpg_none name relPath hjpg]
    constructor
    · intro hv; rw [hv]; simp
    · intro hv; rw [hv]; simp

/-- Witness for C2: a JPEG with only `DateTimeOriginal = 1710460800`
(2024-03-15 UTC) gets the caption `"March 15, 2024"`, and a video file with
no metadata gets `"Video"`. -/
theorem c2_witness :
    (processMediaFileForModal (str "x.jpg") (str "x.jpg")
        (some { dateTimeOriginal := some 1710460800 })).caption = str "March 15, 2024" ∧
    (processMediaFileForModal (str "beach_sunset.mp4") (str "beach_sunset.mp4")
        none).caption = str "Video" := by
  constructor
  · have h := ((c2_fallback_chain (str "x.jpg") (str "x.jpg")).1
      { dateTimeOriginal := some 1710460800 } (by decide) (by decide)).1
      1710460800 (by decide) (by decide)
    rw [h]
    decide
  · exact ((c2_fallback_chain (str "beach_sunset.mp4") (str "beach_sunset.mp4")).2.1
      none (by decide)).1 (by decide)

/-- Claim C7 (counterexample): `-.png` passes the extension filter, but its
stem `"-"` collapses to a single space and trims to the empty string, so
the filename-derived caption — and hence the gallery item's caption — is
empty. -/
theorem c7_counterexample :
    isSupportedName (str "-.png") = true ∧
    (processMediaFileForModal (str "-.png") (str "-.png") none).caption = [] := by
  refine ⟨by decide, by decide⟩

/-- Claim C7 (amended): for every media file accepted by the extension
filter whose filename stem contains at least one character that is neither
a hyphen, an underscore nor whitespace, the resolver's caption is
non-empty.  (A stem made only of separators or whitespace, e.g. `-.png`,
trims to the empty caption.) -/
theorem c7_caption_nonempty (name relPath : JStr) (exif : Option ExifData)
    (_hsn : isSupportedName name = true)
    (hstem : ∃ c ∈ parseName relPath, isSep c = false ∧ isWs c = false) :
    (processMediaFileForModal name relPath exif).caption ≠ [] := by
  obtain ⟨c, hc, hcs, hcw⟩ := hstem
  have hfn : filenameCaption relPath ≠ [] := by
    rw [filenameCaption]
    exact jsTrim_collapseSeps_ne_nil _ c hc hcs hcw
  have hfb : (if isVideoExt (lowerStr (extname name)) then str "Video" else filenameCaption relPath)
      ≠ [] := by
    cases hv : isVideoExt (lowerStr (extname name))
    · simpa [hv] using hfn
    · simp [hv, str]
  cases hjpg : isJpgExt (lowerStr (extname name))
  · rw [caption_of_not_jpg name relPath exif hjpg]
    exact hfb
  · cases exif with
    | none =>
      rw [caption_of_jpg_none name relPath hjpg]
      exact hfb
    | some e =>
      rw [caption_of_jpg name relPath e hjpg]
      cases hce : (exifCaption e).isEmpty
      · simpa [hce] using ne_nil_of_isEmpty_false hce
      · simpa [hce] using hfb

/-- Witness for C7: `beach_sunset.mp4` is accepted by the filter, its stem
has non-separator content, and indeed its caption is non-empty. -/
theorem c7_witness :
    (processMediaFileForModal (str "beach_sunset.mp4") (str "beach_sunset.mp4") none).caption
      ≠ [] :=
  c7_caption_nonempty (str "beach_sunset.mp4") (str "beach_sunset.mp4") none (by decide)
    ⟨'b', by decide, by decide, by decide⟩

/-- Claim C5: the display sort is a permutation of the assembled items that
is sorted under the server's comparator — folders strictly before files,
and within each kind by string comparison of the folder name / file
caption — and on the spec's example
`[FileItem("b.jpg"), FolderItem("a"), FileItem("a.jpg")]` it produces
`[FolderItem("a"), FileItem("a.jpg"), FileItem("b.jpg")]`. -/
theorem c5_sort_order :
    (∀ l : List GItem, List.Sorted itemR (gallerySort l)) ∧
    (∀ l : List GItem, (gallerySort l).Perm l) ∧
    (∀ (l : List GItem) (i j : Nat) (hij : i < j) (hj : j < (gallerySort l).length),
      ((gallerySort l).get ⟨j, hj⟩).isFolder = true →
      ((gallerySort l).get ⟨i, lt_trans hij hj⟩).isFolder = true) ∧
    gallerySort [exFileB, exFolderA, exFileA] = [exFolderA, exFileA, exFileB] := by
  exact ⟨gallerySort_sorted, gallerySort_perm,
    fun l _ _ hij hj h => gallerySort_folders_first l hij hj h, by decide⟩

/-- Witness for C5: in the sorted two-folder example the item before the
folder at position 1 is itself a folder. -/
theorem c5_witness :
    ((gallerySort [exFileB, exFolderA,
        GItem.folderI (str "b") (str "b") (str "/folder_icon.png") (str "/b")]).get
      ⟨0, by decide⟩).isFolder = true :=
  c5_sort_order.2.2.1
    [exFileB, exFolderA, GItem.folderI (str "b") (str "b") (str "/folder_icon.png") (str "/b")]
    0 1 (by decide) (by decide) (by decide)

/-- Claim C4 (counterexample): a folder `my-folder` whose only file is
`cover.jpg` carrying a present but empty `ImageDescription` tag keeps the
folder-name caption `"my folder"`: the empty string is falsy, so the
claimed override by the tag's trimmed value (the empty string) does not
happen. -/
theorem c4_counterexample :
    exifAt [.file (str "cover.jpg") (some { imageDescription := some [] })] (str "cover.jpg")
        = some { imageDescription := some [] } ∧
    findFolderCover true [.file (str "cover.jpg") (some { imageDescription := some [] })]
        (str "my-folder")
        = some ⟨str "/my-folder/cover.jpg", str "my folder", str ".jpg"⟩ ∧
    (str "my folder" : JStr) ≠ jsTrim [] := by
  refine ⟨by decide, by decide, by decide⟩

/-- Claim C4 (amended): among a readable folder's media names, the cover is
the first one (enumeration order) whose lowercased stem starts with
`cover`; if none, the first media name; if the folder has no media names,
no cover.  The caption is the folder name with separator runs collapsed
(and trimmed), overridden by the cover's trimmed `ImageDescription` only
when the cover is a JPEG whose tag is present and raw-non-empty. -/
theorem c4_cover_selection (sub : List Entry) (rp : JStr) :
    (getMediaFilesFromDirectory true sub = [] → findFolderCover true sub rp = none) ∧
    (∀ c, (getMediaFilesFromDirectory true sub).find? coverNamePred = some c →
      coverResult sub rp c) ∧
    ((getMediaFilesFromDirectory true sub).find? coverNamePred = none →
      ∀ c cs, getMediaFilesFromDirectory true sub = c :: cs → coverResult sub rp c) := by
  have mkResult : ∀ c : JStr,
      findFolderCover true sub rp = some ⟨'/' :: joinRel rp c,
        (if isJpgExt (lowerStr (extname c)) then
          match exifAt sub c with
          | some e =>
            match e.imageDescription with
            | some d => if d.isEmpty then folderNameCaption rp else jsTrim d
            | none => folderNameCaption rp
          | none => folderNameCaption rp
        else folderNameCaption rp),
        lowerStr (extname c)⟩ →
      coverResult sub rp c := by
    intro c hcov
    refine ⟨_, hcov, rfl, rfl, ?_, ?_, ?_, ?_, ?_⟩
    · intro e d hjpg hex himg hdne
      simp only [hjpg, if_true, hex, himg, isEmpty_false_of_ne_nil hdne]
      simp
    · intro hjpg
      simp [hjpg]
    · intro hjpg hex
      simp [hjpg, hex]
    · intro e hjpg hex himg
      simp [hjpg, hex, himg]
    · intro e hjpg hex himg
      simp [hjpg, hex, himg]
  refine ⟨?_, ?_, ?_⟩
  · intro hms
    rw [findFolderCover, hms]
    rfl
  · intro c hc
    apply mkResult
    rw [findFolderCover]
    have hfilter : (getMediaFilesFromDirectory true sub).filter coverNamePred ≠ [] := by
      intro hnil
      rw [← head?_filter_eq_find?, hnil] at hc
      cases hc
    cases hpc : (getMediaFilesFromDirectory true sub).filter coverNamePred with
    | nil => exact absurd hpc hfilter
    | cons c' tl =>
      have : c' = c := by
        have := head?_filter_eq_find? coverNamePred (getMediaFilesFromDirectory true sub)
        rw [hpc, hc] at this
        exact Option.some.inj this
      subst this
      simp [hpc]
  · intro hnone c cs hms
    apply mkResult
    rw [findFolderCover]
    have hpc : (getMediaFilesFromDirectory true sub).filter coverNamePred = [] := by
      cases hpc : (getMediaFilesFromDirectory true sub).filter coverNamePred with
      | nil => rfl
      | cons c' tl =>
        have := head?_filter_eq_find? coverNamePred (getMediaFilesFromDirectory true sub)
        rw [hpc, hnone] at this
        cases this
    rw [hms] at hpc ⊢
    simp [hpc]

/-- Witness for C4: in a folder `my-folder` holding `b.png` and
`Cover-1.jpg` (no EXIF), the cover is `Cover-1.jpg` and its caption is the
folder-name caption `my folder`. -/
theorem c4_witness :
    coverResult [.file (str "b.png") none, .file (str "Cover-1.jpg") none]
      (str "my-folder") (str "Cover-1.jpg") :=
  (c4_cover_selection [.file (str "b.png") none, .file (str "Cover-1.jpg") none]
      (str "my-folder")).2.1 (str "Cover-1.jpg") (by decide)

/-- Claim C3 (counterexample): in a media root holding subfolder `a` (with
`a/x.png`) and the plain file `y.png`, the claimed depth-first
enumeration-order list is `[a/x.png, y.png]`, but the event-loop push
order of `collectAllMediaFiles` is `[y.png, a/x.png]`: the root file's
push happens in the first microtask drain while the subfolder's `readdir`
is still pending.  Consequently `y.png`'s `data-index` in the real list is
0, not its position 1 in the depth-first list. -/
theorem c3_counterexample :
    collectA [([], true,
      [.dir (str "a") true [.file (str "x.png") none], .file (str "y.png") none])]
      = .ok [processMediaFileForModal (str "y.png") (str "y.png") none,
             processMediaFileForModal (str "x.png") (str "a/x.png") none] ∧
    specFlatten [] [.dir (str "a") true [.file (str "x.png") none], .file (str "y.png") none]
      = [processMediaFileForModal (str "x.png") (str "a/x.png") none,
         processMediaFileForModal (str "y.png") (str "y.png") none] ∧
    ([processMediaFileForModal (str "y.png") (str "y.png") none,
      processMediaFileForModal (str "x.png") (str "a/x.png") none] : List MediaEntry)
      ≠ [processMediaFileForModal (str "x.png") (str "a/x.png") none,
         processMediaFileForModal (str "y.png") (str "y.png") none] ∧
    jsFindIndex (fun f => decide (f.file = str "y.png"))
      [processMediaFileForModal (str "y.png") (str "y.png") none,
       processMediaFileForModal (str "x.png") (str "a/x.png") none] = 0 ∧
    jsFindIndex (fun f => decide (f.file = str "y.png"))
      [processMediaFileForModal (str "x.png") (str "a/x.png") none,
       processMediaFileForModal (str "y.png") (str "y.png") none] = 1 := by
  refine ⟨?_, ?_, by decide, by decide, by decide⟩
  · simp [collectA, subJobs]
    decide
  · simp [specFlatten]
    decide

/-- Claim C3 (amended): with a readable root and readable subtree, the
top-level page renders; its modal list — built in event-loop push order —
is a permutation of the depth-first enumeration-order list of every media
file of the whole tree, so it contains every supported file, nested
subfolders included; and every rendered file tile's `data-index` is the
position of the first entry of the actual modal list whose relative path
matches the tile's file. -/
theorem c3_event_order_modal_list (fs : FS) (h1 : fs.rootOk = true)
    (h2 : readableL fs.rootEntries = true) :
    ∃ page, mainRouteA fs = .ok page ∧
      page.modalList.Perm (specFlatten [] fs.rootEntries) ∧
      ∀ t ∈ page.tiles, ∀ e th idx, t = Tile.fileT e th idx →
        ∃ k : Nat, idx = (k : Int) ∧ ∃ hk : k < page.modalList.length,
          (page.modalList.get ⟨k, hk⟩).file = e.file ∧
          ∀ j (hj : j < page.modalList.length), j < k →
            (page.modalList.get ⟨j, hj⟩).file ≠ e.file := by
  have hrq : readableQ [([], true, fs.rootEntries)] = true := by
    rw [readableQ, readableQ]
    simp [h2]
  obtain ⟨am, hca, hperm0⟩ := collectA_of_readable _ hrq
  have hperm : am.Perm (specFlatten [] fs.rootEntries) := by
    rw [specQ, specQ, List.append_nil] at hperm0
    exact hperm0
  have hmr : mainRouteA fs = .ok ⟨(gallerySort (mainGalleryItems fs.rootEntries)).map
      (renderTile am), am⟩ := by
    simp [mainRouteA, h1, hca]
  refine ⟨_, hmr, hperm, ?_⟩
  intro t ht e th idx hteq
  obtain ⟨it, hit, hrt⟩ := List.mem_map.mp ht
  have hitmem := (gallerySort_perm _).mem_iff.mp hit
  rcases mainGalleryItems_cases _ _ hitmem with ⟨n, ok, sub, _, hfold⟩ | ⟨n, exif, hmem, hsn, hfile⟩
  · rw [hfold] at hrt
    rw [hteq] at hrt
    simp [renderTile] at hrt
  · rw [hfile] at hrt
    rw [hteq] at hrt
    simp only [renderTile, Tile.fileT.injEq] at hrt
    obtain ⟨he, _, hidx⟩ := hrt
    rw [he] at hidx
    have hj : joinRel [] n = n := rfl
    have hmemflat : processMediaFileForModal n n exif ∈ am := by
      refine hperm.mem_iff.mpr ?_
      have := specFlatten_mem_root [] fs.rootEntries n exif hmem hsn
      rwa [hj] at this
    have hex : ∃ x ∈ am, (fun f => decide (f.file = e.file)) x = true := by
      refine ⟨processMediaFileForModal n n exif, hmemflat, ?_⟩
      rw [← he]
      simp
    obtain ⟨k, hk, hlen, hget, hbefore⟩ := findIdxO_spec _ _ hex
    refine ⟨k, ?_, hlen, of_decide_eq_true hget, ?_⟩
    · rw [← hidx, jsFindIndex, hk]
    · intro j hjl hjk
      have := hbefore j hjl hjk
      simpa using this

/-- Witness for C3: the two-file tree of the counterexample renders with a
modal list that is a permutation of the depth-first list, and every file
tile's `data-index` points at the first matching entry of that list. -/
theorem c3_witness :
    ∃ page,
      mainRouteA ⟨true, [.dir (str "a") true [.file (str "x.png") none],
        .file (str "y.png") none]⟩ = .ok page ∧
      page.modalList.Perm (specFlatten []
        [.dir (str "a") true [.file (str "x.png") none], .file (str "y.png") none]) ∧
      ∀ t ∈ page.tiles, ∀ e th idx, t = Tile.fileT e th idx →
        ∃ k : Nat, idx = (k : Int) ∧ ∃ hk : k < page.modalList.length,
          (page.modalList.get ⟨k, hk⟩).file = e.file ∧
          ∀ j (hj : j < page.modalList.length), j < k →
            (page.modalList.get ⟨j, hj⟩).file ≠ e.file :=
  c3_event_order_modal_list
    ⟨true, [.dir (str "a") true [.file (str "x.png") none], .file (str "y.png") none]⟩
    (by decide) (by simp [readableL])

/-- Claim C6 (counterexample): a readable media root with a single
unreadable subfolder: the claim says the flattening walk treats the
subfolder as empty and the page still renders, but `collectAllMediaFiles`
has no try/catch, so the error propagates and the route answers 500. -/
theorem c6_counterexample :
    mainRoute ⟨true, [.dir (str "a") false [.file (str "x.jpg") none]]⟩ = .error () := by
  simp [mainRoute, collectL]

/-- Claim C6 (amended): a subfolder read error during **cover lookup** is
caught and treated as an empty folder (no cover), and a failure to read
the media root yields the 500 response; but a subfolder read error during
the recursive flattening walk is **not** caught: it also makes the
top-level route answer 500.  When every directory is readable the page
renders. -/
theorem c6_error_policy :
    (∀ (sub : List Entry) (rp : JStr),
      getMediaFilesFromDirectory false sub = [] ∧ findFolderCover false sub rp = none) ∧
    (∀ fs : FS, fs.rootOk = false → mainRoute fs = .error ()) ∧
    (∀ fs : FS, fs.rootOk = true → readableL fs.rootEntries = false →
      mainRoute fs = .error ()) ∧
    (∀ fs : FS, fs.rootOk = true → readableL fs.rootEntries = true →
      ∃ p, mainRoute fs = .ok p) := by
  refine ⟨?_, ?_, ?_, ?_⟩
  · intro sub rp
    exact ⟨rfl, rfl⟩
  · intro fs h
    simp [mainRoute, h]
  · intro fs h1 h2
    simp [mainRoute, h1, collectL_error_of_unreadable [] h2]
  · intro fs h1 h2
    refine ⟨⟨(gallerySort (mainGalleryItems fs.rootEntries)).map
      (renderTile (specFlatten [] fs.rootEntries)), specFlatten [] fs.rootEntries⟩, ?_⟩
    simp [mainRoute, h1, collectL_of_readable fs.rootEntries h2 []]

/-- Witness for C6: an unreadable root gives a 500; an all-readable tree
renders. -/
theorem c6_witness :
    mainRoute ⟨false, [.file (str "y.png") none]⟩ = .error () ∧
    ∃ p, mainRoute ⟨true, [.file (str "y.png") none]⟩ = .ok p :=
  ⟨c6_error_policy.2.1 ⟨false, [.file (str "y.png") none]⟩ rfl,
   c6_error_policy.2.2.2 ⟨true, [.file (str "y.png") none]⟩ rfl (by simp [readableL])⟩

/-- Claim C8: when the requested single path segment names a directory
entry of the media root, the folder route renders a page whose modal list
is exactly that folder's immediate media files, processed in enumeration
order with folder-scoped relative paths, and each rendered tile's
`data-index` is its position in that scoped list — defined without
reference to the global flattened list. -/
theorem c8_folder_scope (fs : FS) (nm dn : JStr) (ok : Bool) (sub : List Entry)
    (h : lookupName fs.rootEntries nm = some (.dir dn ok sub)) :
    ∃ page, folderRoute fs nm = .folderR page ∧
      page.modalList = (getMediaFilesFromDirectory ok sub).map
        (fun f => processMediaFileForModal f (joinRel nm f) (exifAt sub f)) ∧
      page.tiles.length = page.modalList.length ∧
      ∀ (k : Nat) (e : MediaEntry), page.modalList[k]? = some e →
        page.tiles[k]? = some (.fileT e ('/' :: e.file) (k : Int)) := by
  refine ⟨⟨withIdx 0 (folderModalList nm ok sub), folderModalList nm ok sub⟩, ?_, rfl,
    withIdx_length _ 0, ?_⟩
  · rw [folderRoute, h]
  · intro k e hk
    rw [withIdx_getElem?, hk]
    simp

/-- Witness for C8: requesting folder `a` (holding `x.png` and `y.png`)
yields the scoped two-entry modal list with tile indexes 0 and 1. -/
theorem c8_witness :
    ∃ page,
      folderRoute ⟨true, [.dir (str "a") true
        [.file (str "x.png") none, .file (str "y.png") none]]⟩ (str "a") = .folderR page ∧
      page.modalList = (getMediaFilesFromDirectory true
          [.file (str "x.png") none, .file (str "y.png") none]).map
        (fun f => processMediaFileForModal f (joinRel (str "a") f)
          (exifAt [.file (str "x.png") none, .file (str "y.png") none] f)) ∧
      page.tiles.length = page.modalList.length ∧
      ∀ (k : Nat) (e : MediaEntry), page.modalList[k]? = some e →
        page.tiles[k]? = some (.fileT e ('/' :: e.file) (k : Int)) :=
  c8_folder_scope
    ⟨true, [.dir (str "a") true [.file (str "x.png") none, .file (str "y.png") none]]⟩
    (str "a") (str "a") true [.file (str "x.png") none, .file (str "y.png") none] (by rfl)

/-- Claim C9: the scanner keeps exactly the names whose lowercased
extension lies in the fixed supported set (`"A.JPG"` included), and every
entry of any gallery item list — top-level tiles, the global modal list,
or a folder page's modal list — has a supported extension. -/
theorem c9_extension_filter :
    (∀ (sub : List Entry) (name : JStr),
      name ∈ getMediaFilesFromDirectory true sub ↔
        name ∈ listNames sub ∧ lowerStr (extname name) ∈ supportedExts) ∧
    isSupportedName (str "A.JPG") = true ∧
    (∀ (fs : FS) (page : MainPage), mainRoute fs = .ok page →
      (∀ x ∈ page.modalList, x.ext ∈ supportedExts) ∧
      (∀ t ∈ page.tiles, ∀ e th idx, t = Tile.fileT e th idx → e.ext ∈ supportedExts)) ∧
    (∀ (fs : FS) (nm : JStr) (page : FolderPage), folderRoute fs nm = .folderR page →
      ∀ x ∈ page.modalList, x.ext ∈ supportedExts) := by
  have hsupp_mem : ∀ x : JStr, supportedExts.contains x = true ↔ x ∈ supportedExts := by
    intro x
    simp [List.contains, List.elem_iff]
  refine ⟨?_, by decide, ?_, ?_⟩
  · intro sub name
    rw [getMediaFilesFromDirectory]
    simp only [if_true]
    rw [List.mem_filter]
    exact and_congr_right fun _ => isSupportedName_iff name
  · intro fs page h
    obtain ⟨hro, hcoll, htiles⟩ := mainRoute_ok_elim fs page h
    have hread := collectL_ok_readable fs.rootEntries [] page.modalList hcoll
    have hflat : page.modalList = specFlatten [] fs.rootEntries := by
      have := collectL_of_readable fs.rootEntries hread []
      rw [this] at hcoll
      exact (Except.ok.inj hcoll).symm
    constructor
    · intro x hx
      rw [hflat] at hx
      exact (hsupp_mem x.ext).mp (specFlatten_ext_supported fs.rootEntries [] x hx)
    · intro t ht e th idx hteq
      obtain ⟨it, hit, hrt⟩ := mainRoute_tiles_mem fs page t h ht
      rcases mainGalleryItems_cases _ _ hit with ⟨n, ok, sub, _, hfold⟩ |
        ⟨n, exif, _, hsn, hfile⟩
      · rw [hfold] at hrt
        rw [hteq] at hrt
        simp [renderTile] at hrt
      · rw [hfile] at hrt
        rw [hteq] at hrt
        simp only [renderTile, Tile.fileT.injEq] at hrt
        obtain ⟨he, _, _⟩ := hrt
        rw [he]
        exact (isSupportedName_iff n).mp hsn
  · intro fs nm page h
    rw [folderRoute] at h
    cases hl : lookupName fs.rootEntries nm with
    | none => rw [hl] at h; cases h
    | some entry =>
      cases entry with
      | file n exif => rw [hl] at h; cases h
      | dir dn ok sub =>
        rw [hl] at h
        cases h
        intro x hx
        simp only [folderModalList, List.mem_map] at hx
        obtain ⟨f, hf, hx⟩ := hx
        rw [← hx]
        exact (isSupportedName_iff f).mp (mem_getMediaFiles hf)

/-- Witness for C9: `A.JPG` passes the filter and a png sits in the scoped
list of a folder page with only supported extensions. -/
theorem c9_witness :
    (str "A.JPG") ∈ getMediaFilesFromDirectory true [.file (str "A.JPG") none] ↔
      (str "A.JPG") ∈ listNames [.file (str "A.JPG") none] ∧
        lowerStr (extname (str "A.JPG")) ∈ supportedExts :=
  c9_extension_filter.1 [.file (str "A.JPG") none] (str "A.JPG")

/-- Claim C10: the dynamic folder route pattern matches exactly one path
segment, so no request whose path has two or more segments ever renders a
gallery page (top-level or folder); and every folder tile of the top-level
page links to `/<name>` for an immediate subdirectory `<name>` of the
media root. -/
theorem c10_no_deep_gallery :
    (∀ (fs : FS) (segs : List JStr), 2 ≤ segs.length →
      (∀ p, dispatch fs segs ≠ .mainR p) ∧ (∀ q, dispatch fs segs ≠ .folderR q)) ∧
    (∀ (fs : FS) (page : MainPage), mainRoute fs = .ok page →
      ∀ t ∈ page.tiles, ∀ lk th c, t = Tile.folderT lk th c →
        ∃ n ok sub, Entry.dir n ok sub ∈ fs.rootEntries ∧ lk = '/' :: n) := by
  constructor
  · intro fs segs hlen
    rcases segs with _ | ⟨a, _ | ⟨b, rest⟩⟩
    · simp at hlen
    · simp at hlen
    · have hd : dispatch fs (a :: b :: rest) =
          if resolveStatic fs.rootEntries (a :: b :: rest) then
            .staticR (joinSegs (a :: b :: rest))
          else .notFound := rfl
      rw [hd]
      cases hrs : resolveStatic fs.rootEntries (a :: b :: rest)
      · simp only [Bool.false_eq_true, if_false]
        constructor <;> (intro _ hcontra; cases hcontra)
      · simp only [if_true]
        constructor <;> (intro _ hcontra; cases hcontra)
  · intro fs page h t ht lk th c hteq
    obtain ⟨it, hit, hrt⟩ := mainRoute_tiles_mem fs page t h ht
    rcases mainGalleryItems_cases _ _ hit with ⟨n, ok, sub, hmem, hfold⟩ |
      ⟨n, exif, _, _, hfile⟩
    · rw [hfold] at hrt
      rw [hteq] at hrt
      simp only [renderTile, Tile.folderT.injEq] at hrt
      exact ⟨n, ok, sub, hmem, hrt.1⟩
    · rw [hfile] at hrt
      rw [hteq] at hrt
      simp [renderTile] at hrt

/-- Witness for C10: a two-segment request for a nested file is served
statically, not as a gallery page; and the folder tile of a one-folder
root links to `/a`. -/
theorem c10_witness :
    (∀ p, dispatch ⟨true, [.dir (str "a") true [.file (str "x.png") none]]⟩
      [str "a", str "x.png"] ≠ .mainR p) ∧
    (∀ q, dispatch ⟨true, [.dir (str "a") true [.file (str "x.png") none]]⟩
      [str "a", str "x.png"] ≠ .folderR q) :=
  (c10_no_deep_gallery.1 ⟨true, [.dir (str "a") true [.file (str "x.png") none]]⟩
    [str "a", str "x.png"] (by decide))

